import Mathlib

/-!
Verification development for laminar's run core (src/src/run.h).

The repository source provides the full data-model declarations (RunState,
Run's fields and their initializers, the Script queue, and the four-way
multi-indexed RunSet), but the member-function bodies (run.cpp) are not part
of the sources.  Those operations are therefore modelled from the spec, each
marked with a doc comment starting `Modelled from the spec:`.  The RunSet
index semantics follow the boost::multi_index index declarations in
src/src/run.h:138-151 (two hashed_unique indices, two ordered_non_unique
indices).
-/

/-- RunState enum from src/src/run.h:35-42. -/
inductive RunState where
  | UNKNOWN
  | PENDING
  | RUNNING
  | ABORTED
  | FAILED
  | SUCCESS
deriving DecidableEq, Repr

/-- The terminal states of a run: ABORTED, FAILED, SUCCESS. -/
def RunState.isTerminal : RunState → Bool
  | .ABORTED => true
  | .FAILED => true
  | .SUCCESS => true
  | _ => false

/-- Script record from src/src/run.h:101-105 (path, cwd, runOnAbort).
kj::Path values are modelled as strings. -/
structure Script where
  path : String
  cwd : String
  runOnAbort : Bool
deriving DecidableEq, Repr

/-- The Run state, fields from src/src/run.h:79-112.  Times are naturals,
pids are naturals, kj::Maybe is Option.  The two one-shot promise pairs
(started, finished) are modelled by: a flag recording whether the signal has
been fulfilled (and with which value, for finished), plus a flag recording
whether the promise has already been moved out to its consumer. -/
structure Run where
  name : String
  params : List (String × String)
  rootPath : String
  build : Nat
  result : RunState
  current_pid : Option Nat
  scripts : List Script
  env : List String
  queuedAt : Nat
  startedAt : Nat
  startedFired : Bool
  finishedFired : Option RunState
  finishedConsumed : Bool
deriving DecidableEq, Repr

/-- Modelled from the spec: the Run constructor (declared src/src/run.h:53,
body not in the sources) allocates a run in the UNKNOWN/unconfigured state,
records queuedAt, and stores the immutable parameters and root path.
`build = 0` is the in-class initializer at src/src/run.h:85. -/
def Run.construct (name : String) (params : List (String × String))
    (rootPath : String) (now : Nat) : Run :=
  { name := name
    params := params
    rootPath := rootPath
    build := 0
    result := RunState.UNKNOWN
    current_pid := none
    scripts := []
    env := []
    queuedAt := now
    startedAt := 0
    startedFired := false
    finishedFired := none
    finishedConsumed := false }

/-- Modelled from the spec: Run::configure (declared src/src/run.h:61, body
not in the sources) binds the build number, records startedAt on success and
leaves the run pending execution.  A preparation failure (configure returning
false) is modelled by the caller not applying this function. -/
def Run.configure (r : Run) (buildNum : Nat) (t : Nat) : Run :=
  { r with build := buildNum, startedAt := t, result := RunState.PENDING }

/-- Modelled from the spec: Run::addScript (declared src/src/run.h:96, body
not in the sources) appends a script to the FIFO queue. -/
def Run.addScript (r : Run) (path cwd : String) (runOnAbort : Bool) : Run :=
  { r with scripts := r.scripts ++ [⟨path, cwd, runOnAbort⟩] }

/-- Modelled from the spec: Run::addEnv (declared src/src/run.h:99, body not
in the sources) appends an environment file to be sourced before each
script. -/
def Run.addEnv (r : Run) (p : String) : Run :=
  { r with env := r.env ++ [p] }

/-- The composed execution of one script: the script itself, the environment
files sourced before it (in addition order), and the run's parameter mapping
injected afterwards. -/
structure Launch where
  script : Script
  envFiles : List String
  params : List (String × String)
deriving DecidableEq, Repr

/-- Result of one Run::step call: the updated run state, the launch request
handed to the external process facility (if a script was started), and the
returned "done" boolean. -/
structure StepResult where
  run : Run
  launch : Option Launch
  done : Bool
deriving DecidableEq, Repr

/-- Modelled from the spec: Run::step (declared src/src/run.h:65, body not in
the sources).  With no process in flight: if the queue is non-empty it pops
the front script, launches it with the accumulated environment files plus
params, records current_pid and returns false; if the queue is empty it
finalizes result to its terminal value (SUCCESS when no failure or abort was
recorded, otherwise the terminal value already reached — first terminal
write wins), fulfills the one-shot finished signal with that value, and
returns true.  `pid` is the process id the external facility assigns to the
launched script. -/
def Run.step (r : Run) (pid : Nat) : StepResult :=
  match r.scripts with
  | [] =>
      let final := if r.result.isTerminal then r.result else RunState.SUCCESS
      { run := { r with
                   result := final
                   finishedFired := some (r.finishedFired.getD final) }
        launch := none
        done := true }
  | s :: rest =>
      { run := { r with
                   scripts := rest
                   current_pid := some pid
                   startedFired := true
                   result := if r.result.isTerminal then r.result
                             else RunState.RUNNING }
        launch := some { script := s, envFiles := r.env, params := r.params }
        done := false }

/-- Modelled from the spec: Run::abort (declared src/src/run.h:68, body not
in the sources).  On a non-terminal run it sets result to ABORTED and either
filters the queue down to the runOnAbort scripts (respectRunOnAbort) or
clears it; aborting an already-terminal run is a no-op.  Signalling
current_pid is an external side effect and leaves the modelled state
unchanged. -/
def Run.abort (r : Run) (respectRunOnAbort : Bool) : Run :=
  if r.result.isTerminal then r
  else
    { r with
        result := RunState.ABORTED
        scripts := if respectRunOnAbort then
                     r.scripts.filter (fun s => s.runOnAbort)
                   else [] }

/-- Modelled from the spec: Run::reaped (declared src/src/run.h:72, body not
in the sources).  Clears current_pid; a zero status means the script
succeeded and execution continues unchanged; a non-zero status sets result
to FAILED unless it is already ABORTED and prunes every non-runOnAbort
script from the queue. -/
def Run.reaped (r : Run) (status : Int) : Run :=
  if status = 0 then { r with current_pid := none }
  else
    { r with
        current_pid := none
        result := if r.result = RunState.ABORTED then RunState.ABORTED
                  else RunState.FAILED
        scripts := r.scripts.filter (fun s => s.runOnAbort) }

/-- Modelled from the spec: Run::whenFinished (src/src/run.h:77) moves the
promise out of the run, so the signal can be retrieved at most once; a
second call finds no promise left.  The first component is the retrieved
promise (carrying the fulfilled value once the signal has fired), the second
the run afterwards. -/
def Run.whenFinished (r : Run) : Option (Option RunState) × Run :=
  if r.finishedConsumed then (none, r)
  else (some r.finishedFired, { r with finishedConsumed := true })

/-! ## Legal call sequences

The external collaborators drive a run through step/abort/reaped under the
contract of the spec: step is only called with no process in flight, reaped
only with a process in flight, abort at any time.  `Run.Steps` is the
resulting reachability relation and `Run.Init` describes a freshly
configured run (no process, pending, finished signal not yet fired). -/

def Run.Init (r : Run) : Prop :=
  r.current_pid = none ∧ r.result = RunState.PENDING ∧ r.finishedFired = none

inductive Run.Steps : Run → Run → Prop
  | refl (r : Run) : Run.Steps r r
  | step {r₀ r : Run} (pid : Nat) :
      Run.Steps r₀ r → r.current_pid = none → Run.Steps r₀ (r.step pid).run
  | abort {r₀ r : Run} (b : Bool) :
      Run.Steps r₀ r → Run.Steps r₀ (r.abort b)
  | reaped {r₀ r : Run} (status : Int) (p : Nat) :
      Run.Steps r₀ r → r.current_pid = some p → Run.Steps r₀ (r.reaped status)

/-- A run state arising from a configured run by a legal call sequence. -/
def Run.Reachable (r : Run) : Prop :=
  ∃ r₀ : Run, Run.Init r₀ ∧ Run.Steps r₀ r

/-- The inductive invariant of legal call sequences: a successful run has an
empty queue and no process in flight, and a fired finished signal carries
the run's (terminal) result. -/
def Run.Inv (r : Run) : Prop :=
  (r.result = RunState.SUCCESS → r.scripts = [] ∧ r.current_pid = none) ∧
  (∀ v, r.finishedFired = some v → r.result = v ∧ v.isTerminal = true)


theorem Run.inv_of_init {r : Run} (h : Run.Init r) : Run.Inv r := by
  obtain ⟨hpid, hres, hfin⟩ := h
  refine ⟨fun hs => ?_, fun v hv => ?_⟩
  · rw [hres] at hs; cases hs
  · rw [hfin] at hv; cases hv

theorem Run.inv_step {r : Run} (hr : Run.Inv r) (pid : Nat)
    (hpid : r.current_pid = none) : Run.Inv (r.step pid).run := by
  obtain ⟨hsucc, hfin⟩ := hr
  cases hsc : r.scripts with
  | nil =>
    cases hf : r.finishedFired with
    | none =>
      cases hres : r.result <;>
        simp_all [Run.step, Run.Inv, RunState.isTerminal]
    | some w =>
      have hw := hfin w hf
      cases hres : r.result <;>
        simp_all [Run.step, Run.Inv, RunState.isTerminal]
  | cons s rest =>
    have hns : r.result = RunState.SUCCESS → False := by
      intro hs
      rw [(hsucc hs).1] at hsc
      cases hsc
    cases hf : r.finishedFired with
    | none =>
      cases hres : r.result <;>
        simp_all [Run.step, Run.Inv, RunState.isTerminal]
    | some w =>
      have hw := hfin w hf
      cases hres : r.result <;>
        simp_all [Run.step, Run.Inv, RunState.isTerminal]

theorem Run.inv_abort {r : Run} (hr : Run.Inv r) (b : Bool) :
    Run.Inv (r.abort b) := by
  obtain ⟨hsucc, hfin⟩ := hr
  cases hf : r.finishedFired with
  | none =>
    cases hres : r.result <;>
      simp_all [Run.abort, Run.Inv, RunState.isTerminal]
  | some w =>
    have hw := hfin w hf
    cases hres : r.result <;>
      simp_all [Run.abort, Run.Inv, RunState.isTerminal]

theorem Run.inv_reaped {r : Run} (hr : Run.Inv r) (status : Int) (p : Nat)
    (hpid : r.current_pid = some p) : Run.Inv (r.reaped status) := by
  obtain ⟨hsucc, hfin⟩ := hr
  have hns : r.result = RunState.SUCCESS → False := by
    intro hs
    rw [(hsucc hs).2] at hpid
    cases hpid
  rcases hz : decide (status = 0) with _ | _
  · have hz' := of_decide_eq_false hz
    cases hf : r.finishedFired with
    | none =>
      cases hres : r.result <;>
        simp_all [Run.reaped, Run.Inv, RunState.isTerminal]
    | some w =>
      obtain ⟨hw1, hw2⟩ := hfin w hf
      subst hw1
      cases hres : r.result <;>
        simp_all [Run.reaped, Run.Inv, RunState.isTerminal]
  · have hz' := of_decide_eq_true hz
    cases hf : r.finishedFired with
    | none =>
      cases hres : r.result <;>
        simp_all [Run.reaped, Run.Inv, RunState.isTerminal]
    | some w =>
      obtain ⟨hw1, hw2⟩ := hfin w hf
      subst hw1
      cases hres : r.result <;>
        simp_all [Run.reaped, Run.Inv, RunState.isTerminal]

theorem Run.inv_of_reachable {r : Run} (h : Run.Reachable r) : Run.Inv r := by
  obtain ⟨r₀, hinit, hsteps⟩ := h
  induction hsteps with
  | refl => exact Run.inv_of_init hinit
  | step pid _ hpid ih => exact Run.inv_step ih pid hpid
  | abort b _ ih => exact Run.inv_abort ih b
  | reaped status p _ hpid ih => exact Run.inv_reaped ih status p hpid

/-- C1: For every Run (reachable by a legal call sequence), once `result` has
reached a terminal state (ABORTED, FAILED, or SUCCESS), no subsequent step()
call (made with no process in flight) or reaped() call (made with a process
in flight, as the contract requires) changes `result`: the first terminal
write wins and `result` is never overwritten afterwards. -/
theorem Run.result_terminal_stable (r : Run) (h : Run.Reachable r)
    (ht : r.result.isTerminal = true) :
    (∀ pid, r.current_pid = none → ((r.step pid).run).result = r.result) ∧
    (∀ status p, r.current_pid = some p → (r.reaped status).result = r.result) := by
  obtain ⟨hsucc, hfin⟩ := Run.inv_of_reachable h
  constructor
  · intro pid _
    cases hsc : r.scripts <;> cases hres : r.result <;>
      simp_all [Run.step, RunState.isTerminal]
  · intro status p hp
    have hns : r.result = RunState.SUCCESS → False := by
      intro hs
      rw [(hsucc hs).2] at hp
      cases hp
    rcases hz : decide (status = 0) with _ | _
    · have hz' := of_decide_eq_false hz
      cases hres : r.result <;> simp_all [Run.reaped, RunState.isTerminal]
    · have hz' := of_decide_eq_true hz
      cases hres : r.result <;> simp_all [Run.reaped, RunState.isTerminal]

/-- A concrete configured run used to exercise the theorems: job "job" with a
runOnAbort cleanup script, a normal script, and build number 3. -/
def exRun : Run :=
  (((Run.construct "job" [("k", "v")] "/" 0).addScript "a.sh" "." true).addScript
      "b.sh" "." false).configure 3 5

/-- exRun, after launching its first script (pid 11) and aborting with
respectRunOnAbort = true. -/
def exAborted : Run := ((exRun.step 11).run).abort true

theorem exAborted_reachable : Run.Reachable exAborted :=
  ⟨exRun, ⟨rfl, rfl, rfl⟩,
    Run.Steps.abort true (Run.Steps.step 11 (Run.Steps.refl exRun) rfl)⟩

theorem exReaped_reachable : Run.Reachable (exAborted.reaped 1) :=
  ⟨exRun, ⟨rfl, rfl, rfl⟩,
    Run.Steps.reaped 1 11
      (Run.Steps.abort true (Run.Steps.step 11 (Run.Steps.refl exRun) rfl)) rfl⟩

theorem Run.result_terminal_stable_witness :
    (exAborted.reaped 1).result = exAborted.result ∧
    (((exAborted.reaped 1).step 9).run).result = (exAborted.reaped 1).result :=
  ⟨(Run.result_terminal_stable exAborted exAborted_reachable (by decide)).2 1 11 rfl,
   (Run.result_terminal_stable (exAborted.reaped 1) exReaped_reachable
      (by decide)).1 9 rfl⟩

/-- C2: step() with no process in flight: with a non-empty queue it pops the
front Script, hands it to the process facility together with the accumulated
environment files and params, records current_pid and returns false; with an
empty queue it finalizes result to a terminal value, fulfills the finished
signal and returns true. -/
theorem Run.step_spec (r : Run) (pid : Nat) (hpid : r.current_pid = none) :
    (∀ s rest, r.scripts = s :: rest →
        (r.step pid).run.scripts = rest ∧
        (r.step pid).run.current_pid = some pid ∧
        (r.step pid).launch =
          some { script := s, envFiles := r.env, params := r.params } ∧
        (r.step pid).done = false) ∧
    (r.scripts = [] →
        ((r.step pid).run.result).isTerminal = true ∧
        ((r.step pid).run.finishedFired).isSome = true ∧
        (r.step pid).launch = none ∧
        (r.step pid).done = true) := by
  constructor
  · intro s rest h
    simp [Run.step, h]
  · intro h
    refine ⟨?_, ?_, ?_, ?_⟩ <;>
      cases hres : r.result <;>
        simp [Run.step, h, hres, RunState.isTerminal]

theorem Run.step_spec_witness :
    ((exRun.step 11).run.scripts = [⟨"b.sh", ".", false⟩] ∧
     (exRun.step 11).run.current_pid = some 11 ∧
     (exRun.step 11).launch =
       some { script := ⟨"a.sh", ".", true⟩, envFiles := [],
              params := [("k", "v")] } ∧
     (exRun.step 11).done = false) ∧
    (((((Run.construct "j2" [] "/" 0).configure 1 4).step 7).run.result).isTerminal
        = true ∧
     ((((Run.construct "j2" [] "/" 0).configure 1 4).step 7).run.finishedFired).isSome
        = true ∧
     (((Run.construct "j2" [] "/" 0).configure 1 4).step 7).launch = none ∧
     (((Run.construct "j2" [] "/" 0).configure 1 4).step 7).done = true) :=
  ⟨(Run.step_spec exRun 11 rfl).1 ⟨"a.sh", ".", true⟩ [⟨"b.sh", ".", false⟩] rfl,
   (Run.step_spec ((Run.construct "j2" [] "/" 0).configure 1 4) 7 rfl).2 rfl⟩

/-- C3: abort(respectRunOnAbort) on a non-terminal run sets result to ABORTED
and filters the queue down to exactly the runOnAbort scripts in their
original order (respectRunOnAbort = true) or clears it entirely
(respectRunOnAbort = false); aborting an already-terminal run changes
nothing. -/
theorem Run.abort_spec (r : Run) (b : Bool) :
    (r.result.isTerminal = false →
        (r.abort b).result = RunState.ABORTED ∧
        (r.abort b).scripts =
          (if b then r.scripts.filter (fun s => s.runOnAbort) else [])) ∧
    (r.result.isTerminal = true → r.abort b = r) := by
  constructor <;> intro h <;> simp [Run.abort, h]

theorem Run.abort_spec_witness :
    (((exRun.step 11).run.abort true).result = RunState.ABORTED ∧
     ((exRun.step 11).run.abort true).scripts =
       (if true then (exRun.step 11).run.scripts.filter (fun s => s.runOnAbort)
        else [])) ∧
    (exAborted.abort false = exAborted) :=
  ⟨(Run.abort_spec (exRun.step 11).run true).1 rfl,
   (Run.abort_spec exAborted false).2 rfl⟩

/-- C4: reaped(status) with a process in flight clears current_pid; for
status = 0 it leaves result (and the queue) unchanged so execution can
continue; for status ≠ 0 it sets result to FAILED unless it is already
ABORTED and removes every script not flagged runOnAbort from the queue. -/
theorem Run.reaped_spec (r : Run) (status : Int) (p : Nat)
    (hp : r.current_pid = some p) :
    (r.reaped status).current_pid = none ∧
    (status = 0 → (r.reaped status).result = r.result ∧
                  (r.reaped status).scripts = r.scripts) ∧
    (status ≠ 0 →
        (r.reaped status).result =
          (if r.result = RunState.ABORTED then RunState.ABORTED
           else RunState.FAILED) ∧
        (r.reaped status).scripts = r.scripts.filter (fun s => s.runOnAbort)) := by
  rcases hz : decide (status = 0) with _ | _
  · have hz' := of_decide_eq_false hz
    exact ⟨by simp [Run.reaped, hz'], fun h => absurd h hz',
           fun _ => ⟨by simp [Run.reaped, hz'], by simp [Run.reaped, hz']⟩⟩
  · have hz' := of_decide_eq_true hz
    subst hz'
    exact ⟨by simp [Run.reaped], fun _ => ⟨by simp [Run.reaped], by simp [Run.reaped]⟩,
           fun h => absurd rfl h⟩

theorem Run.reaped_spec_witness :
    (((exRun.step 11).run.reaped 2).current_pid = none ∧
     ((exRun.step 11).run.reaped 2).result =
       (if (exRun.step 11).run.result = RunState.ABORTED then RunState.ABORTED
        else RunState.FAILED) ∧
     ((exRun.step 11).run.reaped 2).scripts =
       (exRun.step 11).run.scripts.filter (fun s => s.runOnAbort)) ∧
    (((exRun.step 11).run.reaped 0).result = (exRun.step 11).run.result ∧
     ((exRun.step 11).run.reaped 0).scripts = (exRun.step 11).run.scripts) :=
  ⟨⟨(Run.reaped_spec (exRun.step 11).run 2 11 rfl).1,
    ((Run.reaped_spec (exRun.step 11).run 2 11 rfl).2.2 (by decide))⟩,
   (Run.reaped_spec (exRun.step 11).run 0 11 rfl).2.1 rfl⟩

/-- Drive a run fuelled by the queue length: step, hand the launch to the
(always-succeeding) external facility, reap with status 0, repeat.  Collects
the sequence of launches the external process facility receives. -/
def Run.driveAux : Nat → Run → List Launch
  | 0, _ => []
  | n + 1, r =>
      match (r.step 0).launch with
      | some l => l :: Run.driveAux n ((r.step 0).run.reaped 0)
      | none => []

/-- The full launch sequence of a run whose scripts all succeed. -/
def Run.driveAll (r : Run) : List Launch :=
  Run.driveAux r.scripts.length r

theorem Run.driveAux_eq (l : List Script) :
    ∀ r : Run, r.scripts = l →
      Run.driveAux l.length r =
        l.map (fun s => { script := s, envFiles := r.env, params := r.params }) := by
  induction l with
  | nil => intro r _; rfl
  | cons s rest ih =>
    intro r h
    have hstep :
        ((r.step 0).run.reaped 0).scripts = rest ∧
        ((r.step 0).run.reaped 0).env = r.env ∧
        ((r.step 0).run.reaped 0).params = r.params := by
      simp [Run.step, h, Run.reaped]
    have hrec := ih ((r.step 0).run.reaped 0) hstep.1
    rw [hstep.2.1, hstep.2.2] at hrec
    simp only [List.length_cons, Run.driveAux, Run.step, h, List.map_cons]
    simp only [Run.step, h] at hrec
    exact congrArg _ hrec

/-- C5: scripts are executed (launched) in exactly queue insertion (FIFO)
order, and each launch carries the environment files in their addition order
followed by the run's parameter mapping. -/
theorem Run.driveAll_fifo (r : Run) :
    r.driveAll =
      r.scripts.map
        (fun s => { script := s, envFiles := r.env, params := r.params }) :=
  Run.driveAux_eq r.scripts r rfl

/-- C6: for every reachable Run, the finished signal's delivered value equals
the run's result at the moment it fires (and stays equal, since once fired it
is never re-fulfilled with another value by step/abort/reaped), and the
signal's value can be retrieved at most once: after whenFinished moves the
promise out, a second whenFinished finds none. -/
theorem Run.finished_signal_spec (r : Run) (h : Run.Reachable r) :
    (∀ v, r.finishedFired = some v → r.result = v) ∧
    (∀ v, r.finishedFired = some v →
        (∀ pid, ((r.step pid).run).finishedFired = some v) ∧
        (∀ b, (r.abort b).finishedFired = some v) ∧
        (∀ status, (r.reaped status).finishedFired = some v)) ∧
    ((r.whenFinished.2).whenFinished.1 = none) := by
  obtain ⟨hsucc, hfin⟩ := Run.inv_of_reachable h
  refine ⟨fun v hv => (hfin v hv).1, fun v hv => ⟨?_, ?_, ?_⟩, ?_⟩
  · intro pid
    cases hsc : r.scripts <;> simp [Run.step, hsc, hv]
  · intro b
    by_cases ht : r.result.isTerminal = true <;> simp [Run.abort, ht, hv]
  · intro status
    by_cases hz : status = 0 <;> simp [Run.reaped, hz, hv]
  · by_cases hc : r.finishedConsumed = true <;> simp [Run.whenFinished, hc]

/-- A run with an empty queue, configured and stepped once to completion; its
finished signal has fired with SUCCESS. -/
def exDone : Run := (((Run.construct "j2" [] "/" 0).configure 1 4).step 7).run

theorem exDone_reachable : Run.Reachable exDone :=
  ⟨(Run.construct "j2" [] "/" 0).configure 1 4, ⟨rfl, rfl, rfl⟩,
    Run.Steps.step 7 (Run.Steps.refl ((Run.construct "j2" [] "/" 0).configure 1 4))
      rfl⟩

theorem Run.finished_signal_spec_witness :
    exDone.result = RunState.SUCCESS ∧
    ((exDone.step 9).run).finishedFired = some RunState.SUCCESS ∧
    (exDone.whenFinished.2).whenFinished.1 = none :=
  ⟨(Run.finished_signal_spec exDone exDone_reachable).1 RunState.SUCCESS rfl,
   ((Run.finished_signal_spec exDone exDone_reachable).2.1 RunState.SUCCESS rfl).1 9,
   (Run.finished_signal_spec exDone exDone_reachable).2.2⟩

/-! ## Lifecycle traces and the build number -/

/-- One lifecycle operation applied to a run after construction. -/
inductive LifeOp where
  | configureOp (buildNum : Nat) (t : Nat)
  | stepOp (pid : Nat)
  | abortOp (b : Bool)
  | reapOp (status : Int)
  | scriptOp (path cwd : String) (roa : Bool)
  | envOp (p : String)
deriving DecidableEq, Repr

def Run.applyOp (r : Run) : LifeOp → Run
  | .configureOp n t => r.configure n t
  | .stepOp pid => (r.step pid).run
  | .abortOp b => r.abort b
  | .reapOp st => r.reaped st
  | .scriptOp p c b => r.addScript p c b
  | .envOp p => r.addEnv p

def Run.runOps (r : Run) (ops : List LifeOp) : Run :=
  ops.foldl Run.applyOp r

def LifeOp.isConfigure : LifeOp → Bool
  | .configureOp _ _ => true
  | _ => false

theorem Run.applyOp_build_of_not_configure (r : Run) (op : LifeOp)
    (h : op.isConfigure = false) : (r.applyOp op).build = r.build := by
  cases op with
  | configureOp n t => cases h
  | stepOp pid =>
    cases hsc : r.scripts <;> simp [Run.applyOp, Run.step, hsc]
  | abortOp b =>
    by_cases ht : r.result.isTerminal = true <;> simp [Run.applyOp, Run.abort, ht]
  | reapOp st =>
    by_cases hz : st = 0 <;> simp [Run.applyOp, Run.reaped, hz]
  | scriptOp p c b => simp [Run.applyOp, Run.addScript]
  | envOp p => simp [Run.applyOp, Run.addEnv]

theorem Run.runOps_build_pos (ops : List LifeOp)
    (hpos : ∀ n t, LifeOp.configureOp n t ∈ ops → 0 < n) :
    ∀ r : Run, 0 < r.build → 0 < (r.runOps ops).build := by
  induction ops with
  | nil => intro r h; exact h
  | cons op rest ih =>
    intro r h
    have hrest : ∀ n t, LifeOp.configureOp n t ∈ rest → 0 < n := by
      intro n t hm
      exact hpos n t (List.mem_cons_of_mem op hm)
    cases hc : op.isConfigure with
    | true =>
      cases op with
      | configureOp n t =>
        exact ih hrest (r.applyOp (LifeOp.configureOp n t))
          (hpos n t (List.mem_cons_self _ _))
      | stepOp pid => cases hc
      | abortOp b => cases hc
      | reapOp st => cases hc
      | scriptOp p c b => cases hc
      | envOp p => cases hc
    | false =>
      refine ih hrest (r.applyOp op) ?_
      rw [Run.applyOp_build_of_not_configure r op hc]
      exact h

/-- C9: starting from a freshly constructed Run, build = 0 until a configure
call appears in the trace, and build > 0 exactly when one does (build
numbers handed out by the scheduler are positive). -/
theorem Run.build_pos_iff_configured (name : String)
    (params : List (String × String)) (rootPath : String) (now : Nat)
    (ops : List LifeOp)
    (hpos : ∀ n t, LifeOp.configureOp n t ∈ ops → 0 < n) :
    0 < ((Run.construct name params rootPath now).runOps ops).build ↔
      ops.any LifeOp.isConfigure = true := by
  have main : ∀ ops : List LifeOp,
      (∀ n t, LifeOp.configureOp n t ∈ ops → 0 < n) →
      ∀ r : Run, r.build = 0 →
      (0 < (r.runOps ops).build ↔ ops.any LifeOp.isConfigure = true) := by
    intro ops
    induction ops with
    | nil =>
      intro _ r h0
      simp [Run.runOps, h0]
    | cons op rest ih =>
      intro hp r h0
      have hrest : ∀ n t, LifeOp.configureOp n t ∈ rest → 0 < n := by
        intro n t hm
        exact hp n t (List.mem_cons_of_mem op hm)
      cases hc : op.isConfigure with
      | true =>
        cases op with
        | configureOp n t =>
          constructor
          · intro _
            simp [List.any_cons, LifeOp.isConfigure]
          · intro _
            exact Run.runOps_build_pos rest hrest _
              (hp n t (List.mem_cons_self _ _))
        | stepOp pid => cases hc
        | abortOp b => cases hc
        | reapOp st => cases hc
        | scriptOp p c b => cases hc
        | envOp p => cases hc
      | false =>
        have hb : (r.applyOp op).build = 0 := by
          rw [Run.applyOp_build_of_not_configure r op hc]
          exact h0
        have := ih hrest (r.applyOp op) hb
        simpa [Run.runOps, List.any_cons, hc] using this
  exact main ops hpos (Run.construct name params rootPath now) rfl

theorem Run.build_pos_iff_configured_witness :
    (0 < ((Run.construct "job" [] "/" 0).runOps
        [LifeOp.scriptOp "a.sh" "." false, LifeOp.configureOp 3 5,
         LifeOp.stepOp 11]).build ↔
      [LifeOp.scriptOp "a.sh" "." false, LifeOp.configureOp 3 5,
         LifeOp.stepOp 11].any LifeOp.isConfigure = true) ∧
    (0 < ((Run.construct "job" [] "/" 0).runOps
        [LifeOp.scriptOp "a.sh" "." false]).build ↔
      [LifeOp.scriptOp "a.sh" "." false].any LifeOp.isConfigure = true) :=
  ⟨Run.build_pos_iff_configured "job" [] "/" 0 _ (by
      intro n t hm
      simp only [List.mem_cons, List.not_mem_nil, or_false] at hm
      rcases hm with h | h | h <;> cases h <;> decide),
   Run.build_pos_iff_configured "job" [] "/" 0 _ (by
      intro n t hm
      simp only [List.mem_cons, List.not_mem_nil, or_false] at hm
      cases hm <;> decide)⟩


/-! ## The run registry (RunSet, src/src/run.h:130-169)

The container holds shared_ptr<Run> values; a stored reference is modelled
as the pointer address paired with the pointed-to Run.  The four indices of
_run_index (src/src/run.h:138-151): hashed_unique on the composite key
(name, build), hashed_unique on the raw pointer (_run_same,
src/src/run.h:130-135), ordered_non_unique on startedAt and
ordered_non_unique on name.  Following boost::multi_index semantics, an
insertion is rejected (the container is unchanged) when some unique index
already contains an element with an equal key, and the ordered indices
iterate the elements sorted by their key. -/

structure RunPtr where
  addr : Nat
  run : Run
deriving DecidableEq, Repr

namespace RunSet

/-- True when `y` blocks the insertion of `x` in one of the two
hashed_unique indices: equal (name, build) composite key, or equal raw
pointer. -/
def collides (x y : RunPtr) : Bool :=
  (y.run.name == x.run.name && y.run.build == x.run.build) || y.addr == x.addr

/-- Insertion into the multi_index container: rejected if a unique index
already holds an equivalent key, otherwise the element joins the backing
store. -/
def insert (s : List RunPtr) (x : RunPtr) : List RunPtr :=
  if s.any (collides x) then s else s ++ [x]

/-- Lookup through index 0 (hashed_unique composite key (name, build),
src/src/run.h:139-144). -/
def byNameNumber (s : List RunPtr) (name : String) (build : Nat) :
    Option RunPtr :=
  s.find? (fun y => y.run.name == name && y.run.build == build)

/-- Lookup through index 1 (hashed_unique raw pointer, src/src/run.h:146). -/
def byRunPtr (s : List RunPtr) (addr : Nat) : Option RunPtr :=
  s.find? (fun y => y.addr == addr)

/-- Comparison key of index 2 (ordered_non_unique by startedAt,
src/src/run.h:148). -/
def startedLE (a b : RunPtr) : Prop :=
  a.run.startedAt ≤ b.run.startedAt

instance : DecidableRel startedLE := fun a b => Nat.decLe _ _

instance : IsTotal RunPtr startedLE := ⟨fun a b => Nat.le_total _ _⟩

instance : IsTrans RunPtr startedLE := ⟨fun _ _ _ => Nat.le_trans⟩

/-- Iteration through index 2: the stored elements in non-decreasing
startedAt order. -/
def byStartedAt (s : List RunPtr) : List RunPtr :=
  s.insertionSort startedLE

/-- The registry contents arising from a sequence of insertions into the
empty container. -/
inductive Built : List RunPtr → Prop
  | nil : Built []
  | ins (s : List RunPtr) (x : RunPtr) : Built s → Built (insert s x)

/-- In a built registry, no two entries share the composite (name, build)
key and no two entries share a pointer. -/
theorem built_pairwise {s : List RunPtr} (h : Built s) :
    s.Pairwise (fun x y =>
      ¬(x.run.name = y.run.name ∧ x.run.build = y.run.build) ∧
      x.addr ≠ y.addr) := by
  induction h with
  | nil => exact List.Pairwise.nil
  | ins s x _ ih =>
    by_cases hc : s.any (collides x) = true
    · simpa [insert, hc] using ih
    · have hc' : s.any (collides x) = false := by
        simpa using hc
      simp only [insert, hc', Bool.false_eq_true, if_false]
      rw [List.pairwise_append]
      refine ⟨ih, List.pairwise_singleton _ _, ?_⟩
      intro a ha b hb
      rw [List.mem_singleton] at hb
      subst hb
      have hca : collides b a = false := by
        rw [List.any_eq_false] at hc'
        simpa using hc' a ha
      unfold collides at hca
      simp only [Bool.or_eq_false_iff, Bool.and_eq_false_iff, beq_eq_false_iff_ne,
        ne_eq] at hca
      constructor
      · intro hk
        rcases hca.1 with h1 | h1
        · exact h1 hk.1
        · exact h1 hk.2
      · intro h1
        exact hca.2 h1

theorem find_key_of_pairwise :
    ∀ s : List RunPtr,
      s.Pairwise (fun x y =>
        ¬(x.run.name = y.run.name ∧ x.run.build = y.run.build) ∧
        x.addr ≠ y.addr) →
      ∀ x ∈ s, byNameNumber s x.run.name x.run.build = some x := by
  intro s
  induction s with
  | nil => intro _ x hx; cases hx
  | cons y t ih =>
    intro hp x hx
    rw [List.pairwise_cons] at hp
    rw [List.mem_cons] at hx
    rcases hx with hx | hx
    · subst hx
      unfold byNameNumber
      rw [List.find?_cons_of_pos]
      simp
    · unfold byNameNumber
      rw [List.find?_cons_of_neg]
      · exact ih hp.2 x hx
      · have hk := (hp.1 x hx).1
        simp only [Bool.and_eq_true, beq_iff_eq, not_and]
        intro h1 h2
        exact hk ⟨h1, h2⟩

theorem key_unique_of_pairwise :
    ∀ s : List RunPtr,
      s.Pairwise (fun x y =>
        ¬(x.run.name = y.run.name ∧ x.run.build = y.run.build) ∧
        x.addr ≠ y.addr) →
      ∀ x ∈ s, ∀ y ∈ s, x.run.name = y.run.name → x.run.build = y.run.build →
        x = y := by
  intro s
  induction s with
  | nil => intro _ x hx; cases hx
  | cons z t ih =>
    intro hp x hx y hy hn hb
    rw [List.pairwise_cons] at hp
    rw [List.mem_cons] at hx hy
    rcases hx with hx | hx <;> rcases hy with hy | hy
    · rw [hx, hy]
    · subst hx
      exact absurd ⟨hn, hb⟩ (hp.1 y hy).1
    · subst hy
      exact absurd ⟨hn.symm, hb.symm⟩ (hp.1 x hx).1
    · exact ih hp.2 x hx y hy hn hb

/-- C7: in a registry built by insertions, looking an entry up by its
composite (name, build) key through the hashed_unique index returns exactly
that entry, and no two distinct entries share a (name, build) pair. -/
theorem byNameNumber_unique (s : List RunPtr) (h : Built s) :
    (∀ x ∈ s, byNameNumber s x.run.name x.run.build = some x) ∧
    (∀ x ∈ s, ∀ y ∈ s, x.run.name = y.run.name → x.run.build = y.run.build →
      x = y) :=
  ⟨find_key_of_pairwise s (built_pairwise h),
   key_unique_of_pairwise s (built_pairwise h)⟩

/-- Two sample registry entries with distinct keys and addresses. -/
def exPtr1 : RunPtr := ⟨100, (Run.construct "job" [] "/" 0).configure 1 7⟩

def exPtr2 : RunPtr := ⟨200, (Run.construct "job" [] "/" 0).configure 2 4⟩

/-- The registry holding exPtr1 and exPtr2. -/
def exSet : List RunPtr := insert (insert [] exPtr1) exPtr2

theorem exSet_built : Built exSet :=
  Built.ins _ _ (Built.ins _ _ Built.nil)

theorem byNameNumber_unique_witness :
    byNameNumber exSet "job" 2 = some exPtr2 ∧ exPtr1 ∈ exSet :=
  ⟨(byNameNumber_unique exSet exSet_built).1 exPtr2 (by decide),
   by decide⟩

theorem addr_filter_of_pairwise :
    ∀ s : List RunPtr,
      s.Pairwise (fun x y =>
        ¬(x.run.name = y.run.name ∧ x.run.build = y.run.build) ∧
        x.addr ≠ y.addr) →
      ∀ a : Nat, (s.filter (fun y => y.addr == a)).length ≤ 1 := by
  intro s
  induction s with
  | nil => intro _ a; simp
  | cons z t ih =>
    intro hp a
    rw [List.pairwise_cons] at hp
    by_cases hz : z.addr = a
    · rw [List.filter_cons_of_pos (by simp [hz])]
      have hnil : t.filter (fun y => y.addr == a) = [] := by
        rw [List.filter_eq_nil]
        intro b hb
        simp only [beq_iff_eq]
        intro hba
        exact absurd (hz.trans hba.symm) (hp.1 b hb).2
      simp [hnil]
    · rw [List.filter_cons_of_neg (by simp [hz])]
      exact ih hp.2 a

/-- C10: the identity index (_run_same, hashed_unique on the raw Run
pointer): inserting a second reference to an already-present Run leaves the
registry unchanged, and for any pointer value the registry holds at most one
matching entry. -/
theorem byRunPtr_identity_unique (s : List RunPtr) (h : Built s) :
    (∀ x y, y ∈ s → y.addr = x.addr → insert s x = s) ∧
    (∀ a, (s.filter (fun y => y.addr == a)).length ≤ 1) := by
  constructor
  · intro x y hy hxy
    have hc : s.any (collides x) = true := by
      rw [List.any_eq_true]
      exact ⟨y, hy, by simp [collides, hxy]⟩
    simp [insert, hc]
  · intro a
    exact addr_filter_of_pairwise s (built_pairwise h) a

theorem byRunPtr_identity_unique_witness :
    insert exSet ⟨200, (Run.construct "other" [] "/" 1).configure 9 9⟩ = exSet ∧
    (exSet.filter (fun y => y.addr == 200)).length ≤ 1 :=
  ⟨(byRunPtr_identity_unique exSet exSet_built).1
      ⟨200, (Run.construct "other" [] "/" 1).configure 9 9⟩ exPtr2
      (by decide) rfl,
   (byRunPtr_identity_unique exSet exSet_built).2 200⟩

/-- C8: iterating the ordered-by-startedAt view of the registry yields the
contained runs in non-decreasing startedAt order, and the view is a
permutation of the registry's contents — two registries holding the same
runs in different insertion orders therefore expose views with the same
runs. -/
theorem byStartedAt_sorted (s : List RunPtr) :
    (byStartedAt s).Sorted startedLE ∧
    (byStartedAt s).Perm s ∧
    (∀ t : List RunPtr, s.Perm t → (byStartedAt s).Perm (byStartedAt t)) := by
  refine ⟨List.sorted_insertionSort startedLE s,
          List.perm_insertionSort startedLE s, ?_⟩
  intro t hst
  exact ((List.perm_insertionSort startedLE s).trans hst).trans
    (List.perm_insertionSort startedLE t).symm

theorem byStartedAt_sorted_witness :
    byStartedAt exSet = [exPtr2, exPtr1] ∧
    (byStartedAt exSet).Perm exSet ∧
    (byStartedAt exSet).Perm (byStartedAt [exPtr2, exPtr1]) :=
  ⟨by decide,
   (byStartedAt_sorted exSet).2.1,
   (byStartedAt_sorted exSet).2.2 [exPtr2, exPtr1] (by decide)⟩
